import Mathlib

/-!
# Verification of `sync_translations.py`

A shallow embedding of the translation-sync utility. JSON documents are
modelled by the inductive `Json`; Python dictionaries become association
lists (`List (String × Json)`) whose key order models insertion order.
The filesystem is modelled at the parsed-JSON level: a file's content is
the `Json` value it parses to, which is faithful because every write the
program performs uses one fixed deterministic serialization
(`json.dump(..., indent=2, ensure_ascii=False)`).
-/

set_option autoImplicit false

/-- JSON values as produced by Python's `json.load`. Numbers are modelled
as integers (the documents this tool handles contain strings, objects and
occasionally numbers; float values are outside the embedding). An object
is an insertion-ordered association list; `json.load` always yields
objects with pairwise-distinct keys. -/
inductive Json where
  | null : Json
  | bool : Bool → Json
  | num : Int → Json
  | str : String → Json
  | arr : List Json → Json
  | obj : List (String × Json) → Json

namespace Json

/-- Lookup in an association list, returning the value at the first
matching key — the behaviour of `dict.__getitem__`/`dict.get` on the
(duplicate-free) dictionaries `json.load` produces. -/
def alookup (k : String) : List (String × Json) → Option Json
  | [] => none
  | (k', v) :: rest => if k' = k then some v else alookup k rest

/-- Replace the value stored at key `k`, keeping the entry's position —
the behaviour of `d[k] = v` on a dictionary that already contains `k`
(CPython dicts keep the key's insertion position on overwrite). -/
def aset (k : String) (v : Json) : List (String × Json) → List (String × Json)
  | [] => []
  | (k', v') :: rest =>
      if k' = k then (k', v) :: aset k v rest else (k', v') :: aset k v rest

/-- The keys of an association list, in order. -/
def akeys (m : List (String × Json)) : List String := m.map Prod.fst

/-- Key membership, the behaviour of `k in d` for a dictionary `d`. -/
def amem (k : String) (m : List (String × Json)) : Bool :=
  m.any (fun p => p.1 = k)

/-- `True` when the keys of the association list are pairwise distinct —
the invariant every Python dictionary satisfies. -/
def keysNodup : List (String × Json) → Bool
  | [] => true
  | (k, _) :: rest => !(amem k rest) && keysNodup rest

/-- Python truthiness of a JSON value (`if not en_us_translations`):
`None`, `False`, `0`, `""`, `[]` and `{}` are falsy, all else truthy. -/
def truthy : Json → Bool
  | .null => false
  | .bool b => b
  | .num n => n != 0
  | .str s => !(s.isEmpty)
  | .arr xs => !(xs.isEmpty)
  | .obj m => !(m.isEmpty)

mutual
/-- Python `==` on values decoded from JSON. It is structural equality
except that `True`/`False` compare equal to the integers `1`/`0`
(`bool` is a subclass of `int` in Python) and that dictionary equality
ignores key order. -/
def pyEq : Json → Json → Bool
  | .null, .null => true
  | .bool a, .bool b => a = b
  | .bool a, .num n => (if a then (1 : Int) else 0) = n
  | .num n, .bool b => n = (if b then (1 : Int) else 0)
  | .num a, .num b => a = b
  | .str a, .str b => a = b
  | .arr xs, .arr ys => pyEqList xs ys
  | .obj a, .obj b => a.length = b.length && pyEqSub a b
  | _, _ => false
termination_by a b => sizeOf a + sizeOf b
decreasing_by all_goals (simp_wf; try omega)

/-- Elementwise Python `==` on lists (Python list equality). -/
def pyEqList : List Json → List Json → Bool
  | [], [] => true
  | x :: xs, y :: ys => pyEq x y && pyEqList xs ys
  | _, _ => false
termination_by xs ys => sizeOf xs + sizeOf ys
decreasing_by all_goals (simp_wf; try omega)

/-- Every entry of the first association list has a Python-equal value at
its key in the second; together with equal lengths (and the dictionary
invariant of duplicate-free keys) this is Python dict equality. -/
def pyEqSub : List (String × Json) → List (String × Json) → Bool
  | [], _ => true
  | (k, v) :: rest, b => pyEqFind k v b && pyEqSub rest b
termination_by a b => sizeOf a + sizeOf b
decreasing_by all_goals (simp_wf; try omega)

/-- Scan for key `k`; compare `v` with the first value found. -/
def pyEqFind : String → Json → List (String × Json) → Bool
  | _, _, [] => false
  | k, v, (k', w) :: rest => if k' = k then pyEq v w else pyEqFind k v rest
termination_by _ v b => sizeOf v + sizeOf b
decreasing_by all_goals (simp_wf; try omega)
end

/-- Well-formedness of a JSON value: every object inside it has
pairwise-distinct keys. `json.load` only produces such values. -/
def wf : Json → Bool
  | .null => true
  | .bool _ => true
  | .num _ => true
  | .str _ => true
  | .arr xs => xs.attach.all (fun x => wf x.1)
  | .obj m => keysNodup m && m.attach.all (fun p => wf p.1.2)
decreasing_by
  · simp_wf
    have := List.sizeOf_lt_of_mem x.2
    omega
  · simp_wf
    obtain ⟨⟨k, v⟩, hm⟩ := p
    have := List.sizeOf_lt_of_mem hm
    simp at this ⊢
    omega

end Json

namespace SyncTrans

/-- One entry of the `updates` list built at lines 50-54 of
`sync_translations.py`: the field key, the previous value
(`translations['fields'].get(field_key)`) and the new authoritative
value. -/
structure UpdateRecord where
  field : String
  old : Json
  new : Json

/-- Errors a run can raise as Python exceptions: `FileNotFoundError`
from `open` on a missing path, and `AttributeError`/`TypeError` from
using a non-dict where the script expects a dict. `main` catches every
exception and exits with status 1. -/
inductive SyncErr where
  | notFound : SyncErr
  | typeErr : SyncErr

/-- `d.get(key, default)` / `d.items()` require `d` to be a dict;
on any other value the attribute access raises. -/
def asDict : Json → Except SyncErr (List (String × Json))
  | .obj m => .ok m
  | _ => .error .typeErr

/-- Python's `key in container` for a string key (line 44): key lookup on
a dict, substring test on a string, elementwise `==` on a list, and a
`TypeError` on the remaining JSON values. -/
def pyContains : Json → String → Except SyncErr Bool
  | .obj m, k => .ok (Json.amem k m)
  | .str s, k => .ok (decide (k.toList <:+: s.toList))
  | .arr xs, k => .ok (xs.any (fun x => Json.pyEq (.str k) x))
  | _, _ => .error .typeErr

/-- The sync loop of lines 42-55, iterating the authoritative `en-us`
items in order over the current value of `translations.get('fields', {})`
(the in-place mutation of line 55 is modelled by threading the updated
mapping into the next iteration). -/
def syncLoop : List (String × Json) → Json → Except SyncErr (List UpdateRecord × Json)
  | [], fieldsJ => .ok ([], fieldsJ)
  | (field_key, label_value) :: rest, fieldsJ => do
    let mem ← pyContains fieldsJ field_key
    if mem then
      match fieldsJ with
      | .obj m =>
        let current_value := (Json.alookup field_key m).getD .null
        if Json.pyEq current_value label_value then
          syncLoop rest fieldsJ
        else do
          let r ← syncLoop rest (.obj (Json.aset field_key label_value m))
          .ok (⟨field_key, current_value, label_value⟩ :: r.1, r.2)
      | _ => .error .typeErr
    else
      syncLoop rest fieldsJ

/-- The same loop specialised to the (only Python-reachable) case where
the target's `fields` entry is a dict: used as the proof-side view of
`syncLoop`, related to it by `syncLoop_obj`. -/
def syncFields : List (String × Json) → List (String × Json) →
    List UpdateRecord × List (String × Json)
  | [], m => ([], m)
  | (field_key, label_value) :: rest, m =>
    match Json.alookup field_key m with
    | none => syncFields rest m
    | some current_value =>
      if Json.pyEq current_value label_value then
        syncFields rest m
      else
        let r := syncFields rest (Json.aset field_key label_value m)
        (⟨field_key, current_value, label_value⟩ :: r.1, r.2)

/-- A filesystem path as the script uses it through `pathlib`: only the
parent directory, the stem and the final suffix are consulted
(line 68). -/
structure Path where
  parent : String
  stem : String
  suffix : String
deriving DecidableEq

/-- `str(path)` as far as the error messages of `main` are concerned. -/
def Path.render (p : Path) : String := p.parent ++ "/" ++ p.stem ++ p.suffix

/-- Line 68: `translations_path.parent / f"{...stem}.backup{...suffix}"`. -/
def backupPath (p : Path) : Path := ⟨p.parent, p.stem ++ ".backup", p.suffix⟩

/-- The filesystem, at the parsed-JSON level: each existing path carries
the JSON value its content parses to. -/
abbrev FS := List (Path × Json)

/-- Read (open + `json.load`) the file at a path, if it exists. -/
def fsRead : FS → Path → Option Json
  | [], _ => none
  | (p', j') :: rest, p => if p' = p then some j' else fsRead rest p

/-- Write (open `'w'` + `json.dump`): replace the content at the path, or
create the file. -/
def fsWrite : FS → Path → Json → FS
  | [], p, j => [(p, j)]
  | (p', j') :: rest, p, j =>
      if p' = p then (p, j) :: rest else (p', j') :: fsWrite rest p j

/-- What a completed run of `sync_translations` leaves behind: the
resulting filesystem, the function's return value, and the `updates`
list it accumulated. -/
structure RunOut where
  fs : FS
  ret : Int
  updates : List UpdateRecord

/-- `sync_translations(webform_path, translations_path)`, lines 16-87.
The backup step (lines 71-72) re-reads the target file from disk; in the
model the read happens before the backup write, which is observationally
equal because `backupPath p ≠ p` always. -/
def sync_translations (fs : FS) (webform_path translations_path : Path) :
    Except SyncErr RunOut := do
  -- lines 22-28: open and json.load both inputs
  let webform ← match fsRead fs webform_path with
    | some j => Except.ok j
    | none => Except.error SyncErr.notFound
  let translations ← match fsRead fs translations_path with
    | some j => Except.ok j
    | none => Except.error SyncErr.notFound
  -- line 31: webform.get('formTranslations', \x7b\x7d)
  let wobj ← asDict webform
  let form_translations := (Json.alookup "formTranslations" wobj).getD (.obj [])
  -- line 32: form_translations.get('en-us', \x7b\x7d)
  let ftobj ← asDict form_translations
  let en_us_translations := (Json.alookup "en-us" ftobj).getD (.obj [])
  -- lines 34-36: `if not en_us_translations: ... return -1`
  if !(Json.truthy en_us_translations) then
    return ⟨fs, -1, []⟩
  -- line 42: en_us_translations.items()
  let en_items ← asDict en_us_translations
  -- line 44 evaluates translations.get('fields', \x7b\x7d) each iteration;
  -- it requires translations to be a dict (the loop body runs at least
  -- once here, since a truthy dict is nonempty)
  let tobj ← asDict translations
  let fieldsJ := (Json.alookup "fields" tobj).getD (.obj [])
  let r ← syncLoop en_items fieldsJ
  -- line 55 mutated translations['fields'] in place; if the key is
  -- absent the default dict of line 44 was a temporary and the document
  -- is unchanged
  let translations' : Json :=
    if Json.amem "fields" tobj then .obj (Json.aset "fields" r.2 tobj)
    else .obj tobj
  if r.1.isEmpty then
    -- lines 82-87: no update, nothing written
    return ⟨fs, 0, []⟩
  else do
    -- lines 67-72: back up the target as re-read fresh from disk
    let orig ← match fsRead fs translations_path with
      | some j => Except.ok j
      | none => Except.error SyncErr.notFound
    let fs1 := fsWrite fs (backupPath translations_path) orig
    -- lines 74-77: write the mutated working copy over the target
    let fs2 := fsWrite fs1 translations_path translations'
    return ⟨fs2, (r.1.length : Int), r.1⟩

/-- The outcome of lines 44-55 for one authoritative item over a fixed
fields mapping: `none` when the key is skipped or the values already
agree, otherwise the update record the loop appends. -/
def updateOf (m : List (String × Json)) (p : String × Json) : Option UpdateRecord :=
  match Json.alookup p.1 m with
  | some w => if Json.pyEq w p.2 then none else some ⟨p.1, w, p.2⟩
  | none => none

/-- The module docstring printed by `main` on a usage error. -/
def usageText : String :=
  "\nAutomatic Translation Sync Script\nSyncs field_translations.json with labels from webform template formTranslations (en-us).\nLabels from formTranslations ALWAYS supersede manual translations.\n\nUsage:\n    python sync_translations.py <webform_template.json> <field_translations.json>\n"

/-- What a finished process run exposes: exit status, final filesystem
and the messages `main` itself printed. -/
structure MainOut where
  exit : Nat
  fs : FS
  msgs : List String

/-- `main()`, lines 90-119. `argv` is `sys.argv[1:]`; the arity test
`len(sys.argv) != 3` is the no-two-arguments branch. Console output of
`sync_translations` itself is not modelled; `main`'s own prints are. -/
def main (argv : List Path) (fs : FS) : MainOut :=
  match argv with
  | [webform_path, translations_path] =>
    -- lines 101-107: existence checks
    if (fsRead fs webform_path).isNone then
      ⟨1, fs, ["Error: Webform template not found: " ++ webform_path.render]⟩
    else if (fsRead fs translations_path).isNone then
      ⟨1, fs, ["Error: Translations file not found: " ++ translations_path.render]⟩
    else
      -- lines 110-119: run the sync; exit 0 iff the return value is ≥ 0;
      -- any exception is caught, printed and turns into exit 1
      match sync_translations fs webform_path translations_path with
      | .ok r => ⟨if 0 ≤ r.ret then 0 else 1, r.fs, []⟩
      | .error _ => ⟨1, fs, ["ERROR"]⟩
  | _ =>
    -- lines 91-95: wrong argument count
    ⟨1, fs, [usageText, "\nExample:",
      "  python sync_translations.py webform-template-123.json field_translations.json"]⟩

/-- Fixture: paths and documents of the worked example in the repository
documentation, used to instantiate the theorems on concrete runs. -/
def exWP : Path := ⟨"data", "webform-template-123", ".json"⟩

def exTP : Path := ⟨"data", "field_translations", ".json"⟩

def exEn : List (String × Json) :=
  [("name", Json.str "Full Name"), ("email", Json.str "Email Address")]

def exFlds : List (String × Json) :=
  [("name", Json.str "Full Nm"), ("email", Json.str "Email Address"),
   ("phone", Json.str "Phone")]

def exWebform : Json := .obj [("formTranslations", .obj [("en-us", .obj exEn)])]

def exTarget : Json := .obj [("fields", .obj exFlds),
  ("options", .obj [("size", .str "Size")])]

def exFS : FS := [(exWP, exWebform), (exTP, exTarget)]

/-- Fixture: a target already in sync with the template. -/
def exTargetSynced : Json := .obj [("fields",
  .obj [("name", .str "Full Name"), ("email", .str "Email Address"),
    ("phone", .str "Phone")]),
  ("options", .obj [("size", .str "Size")])]

def exFSSynced : FS := [(exWP, exWebform), (exTP, exTargetSynced)]

/-- Fixture: a template whose `formTranslations` has no `en-us` entry. -/
def exWebformNoEn : Json := .obj [("formTranslations", .obj [])]

def exFSNoEn : FS := [(exWP, exWebformNoEn), (exTP, exTarget)]

/-- Fixture: a target document with no `fields` key at all. -/
def exTargetNoFields : Json := .obj [("requestTypes", .obj [("rt", .str "Request")])]

def exFSNoFields : FS := [(exWP, exWebform), (exTP, exTargetNoFields)]

/-- The backup path the example run writes. -/
def exBP : Path := ⟨"data", "field_translations.backup", ".json"⟩

/-- The filesystem after the example run on `exFS`. -/
def exFS1 : FS := [(exWP, exWebform), (exTP, exTargetSynced), (exBP, exTarget)]

/-- The full outcome of the example run on `exFS`. -/
def exRun1 : RunOut :=
  ⟨exFS1, 1, [⟨"name", .str "Full Nm", .str "Full Name"⟩]⟩

/-- Fixture for the idempotence counterexample: the webform template
lives exactly at the backup path derived from the target path. -/
def cexWP : Path := ⟨"data", "field_translations.backup", ".json"⟩

def cexTP : Path := ⟨"data", "field_translations", ".json"⟩

def cexWebform : Json := .obj [("formTranslations", .obj [("en-us",
  .obj [("k", .str "A")])])]

def cexTarget : Json := .obj [("fields", .obj [("k", .str "B")]),
  ("formTranslations", .obj [("en-us", .obj [("k", .str "C")])])]

def cexFS : FS := [(cexWP, cexWebform), (cexTP, cexTarget)]

/-- The filesystem the first run on `cexFS` leaves behind: the backup
write clobbered the webform template at `cexWP`. -/
def cexFS1 : FS := [(cexWP, cexTarget),
  (cexTP, .obj [("fields", .obj [("k", .str "A")]),
    ("formTranslations", .obj [("en-us", .obj [("k", .str "C")])])])]

end SyncTrans

namespace Json

theorem amem_cons {k k' : String} {v : Json} {m : List (String × Json)} :
    amem k ((k', v) :: m) = (decide (k' = k) || amem k m) := by
  simp [amem]

theorem alookup_isSome_eq_amem (k : String) (m : List (String × Json)) :
    (alookup k m).isSome = amem k m := by
  induction m with
  | nil => simp [alookup, amem]
  | cons p rest ih =>
    obtain ⟨k', v⟩ := p
    by_cases h : k' = k <;> simp [alookup, amem_cons, h, ih]

theorem alookup_eq_none_iff {k : String} {m : List (String × Json)} :
    alookup k m = none ↔ amem k m = false := by
  rw [← alookup_isSome_eq_amem]
  cases alookup k m <;> simp

theorem alookup_aset_self {k : String} (v : Json) {m : List (String × Json)}
    (h : amem k m = true) : alookup k (aset k v m) = some v := by
  induction m with
  | nil => simp [amem] at h
  | cons p rest ih =>
    obtain ⟨k', v'⟩ := p
    by_cases hk : k' = k
    · simp [aset, hk, alookup]
    · rw [amem_cons] at h
      simp [hk] at h
      simp [aset, hk, alookup, ih h]

theorem alookup_aset_ne {k k' : String} (v : Json) (m : List (String × Json))
    (h : k ≠ k') : alookup k' (aset k v m) = alookup k' m := by
  induction m with
  | nil => simp [aset]
  | cons p rest ih =>
    obtain ⟨k₀, v₀⟩ := p
    by_cases hk : k₀ = k
    · subst hk
      simp only [aset, if_pos rfl, alookup, if_neg h, ih]
    · by_cases hk' : k₀ = k'
      · subst hk'
        simp [aset, alookup, if_neg hk]
      · simp [aset, alookup, if_neg hk, if_neg hk', ih]

theorem akeys_aset (k : String) (v : Json) (m : List (String × Json)) :
    akeys (aset k v m) = akeys m := by
  induction m with
  | nil => simp [aset]
  | cons p rest ih =>
    obtain ⟨k₀, v₀⟩ := p
    by_cases hk : k₀ = k <;> simp [aset, akeys, hk] <;> simpa [akeys] using ih

theorem amem_aset (k k' : String) (v : Json) (m : List (String × Json)) :
    amem k' (aset k v m) = amem k' m := by
  induction m with
  | nil => simp [aset]
  | cons p rest ih =>
    obtain ⟨k₀, v₀⟩ := p
    by_cases hk : k₀ = k <;> simp [aset, amem_cons, hk, ih]

theorem keysNodup_aset (k : String) (v : Json) (m : List (String × Json)) :
    keysNodup (aset k v m) = keysNodup m := by
  induction m with
  | nil => simp [aset]
  | cons p rest ih =>
    obtain ⟨k₀, v₀⟩ := p
    by_cases hk : k₀ = k <;>
      simp [aset, keysNodup, hk, amem_aset, ih]

theorem amem_iff_mem_akeys {k : String} {m : List (String × Json)} :
    amem k m = true ↔ k ∈ akeys m := by
  induction m with
  | nil => simp [amem, akeys]
  | cons p rest ih =>
    obtain ⟨k₀, v₀⟩ := p
    by_cases hk : k₀ = k
    · simp [amem_cons, akeys, hk]
    · have hk' : k ≠ k₀ := fun hh => hk hh.symm
      simp [amem_cons, akeys, hk, hk', ih]

theorem alookup_of_mem {k : String} {v : Json} {m : List (String × Json)}
    (hnd : keysNodup m = true) (h : (k, v) ∈ m) : alookup k m = some v := by
  induction m with
  | nil => simp at h
  | cons p rest ih =>
    obtain ⟨k₀, v₀⟩ := p
    simp [keysNodup] at hnd
    rcases List.mem_cons.mp h with h | h
    · obtain ⟨hk, hv⟩ := Prod.mk.injEq .. ▸ h
      simp [alookup, hk.symm, hv]
    · have hk : k₀ ≠ k := by
        intro hk
        subst hk
        have : amem k₀ rest = true :=
          amem_iff_mem_akeys.mpr (by simpa [akeys] using List.mem_map_of_mem Prod.fst h)
        simp [this] at hnd
      simp [alookup, hk, ih hnd.2 h]

theorem mem_of_alookup {k : String} {v : Json} {m : List (String × Json)}
    (h : alookup k m = some v) : (k, v) ∈ m := by
  induction m with
  | nil => simp [alookup] at h
  | cons p rest ih =>
    obtain ⟨k₀, v₀⟩ := p
    by_cases hk : k₀ = k
    · simp [alookup, hk] at h
      subst hk h
      exact List.mem_cons_self ..
    · simp [alookup, hk] at h
      exact List.mem_cons_of_mem _ (ih h)

theorem pyEqFind_of_alookup {k : String} {v : Json} {m : List (String × Json)}
    (h : alookup k m = some v) (hv : pyEq v v = true) : pyEqFind k v m = true := by
  induction m with
  | nil => simp [alookup] at h
  | cons p rest ih =>
    obtain ⟨k₀, v₀⟩ := p
    by_cases hk : k₀ = k
    · simp [alookup, hk] at h
      simp [pyEqFind, hk, h, hv]
    · simp [alookup, hk] at h
      simp [pyEqFind, hk, ih h]

theorem pyEqSub_of {sub m : List (String × Json)}
    (h : ∀ p ∈ sub, pyEqFind p.1 p.2 m = true) : pyEqSub sub m = true := by
  induction sub with
  | nil => simp [pyEqSub]
  | cons p rest ih =>
    obtain ⟨k, v⟩ := p
    simp [pyEqSub, h (k, v) (List.mem_cons_self ..), ih (fun q hq => h q (List.mem_cons_of_mem _ hq))]

theorem pyEqList_refl_of {xs : List Json}
    (h : ∀ x ∈ xs, pyEq x x = true) : pyEqList xs xs = true := by
  induction xs with
  | nil => simp [pyEqList]
  | cons x rest ih =>
    simp [pyEqList, h x (List.mem_cons_self ..), ih (fun y hy => h y (List.mem_cons_of_mem _ hy))]

theorem wf_arr_iff {xs : List Json} :
    wf (arr xs) = true ↔ ∀ x ∈ xs, wf x = true := by
  rw [wf]
  simp [List.all_eq_true]

theorem wf_obj_iff {m : List (String × Json)} :
    wf (obj m) = true ↔ keysNodup m = true ∧ ∀ p ∈ m, wf p.2 = true := by
  rw [wf]
  simp [List.all_eq_true]

theorem fst_ne_of_amem_false {k : String} {l : List (String × Json)}
    (h : amem k l = false) {p : String × Json} (hp : p ∈ l) : p.1 ≠ k := by
  intro hh
  have hmem : amem k l = true := by
    simp only [amem, List.any_eq_true]
    exact ⟨p, hp, by simp [hh]⟩
  simp [h] at hmem

/-- Python `==` is reflexive on well-formed JSON values (strong induction
on the size of the value). -/
theorem pyEq_refl : ∀ j : Json, wf j = true → pyEq j j = true := by
  suffices h : ∀ (n : Nat) (j : Json), sizeOf j ≤ n → wf j = true → pyEq j j = true by
    intro j hj
    exact h (sizeOf j) j le_rfl hj
  intro n
  induction n with
  | zero =>
    intro j hle
    cases j <;> simp at hle
  | succ n ih =>
    intro j hle hwf
    cases j with
    | null => simp [pyEq]
    | bool b => simp [pyEq]
    | num i => simp [pyEq]
    | str s => simp [pyEq]
    | arr xs =>
      rw [pyEq]
      apply pyEqList_refl_of
      intro x hx
      refine ih x ?_ (wf_arr_iff.mp hwf x hx)
      have := List.sizeOf_lt_of_mem hx
      simp at hle
      omega
    | obj m =>
      rw [pyEq]
      obtain ⟨hnd, hval⟩ := wf_obj_iff.mp hwf
      simp only [Bool.and_eq_true, decide_eq_true_eq]
      refine ⟨trivial, ?_⟩
      apply pyEqSub_of
      intro p hp
      obtain ⟨k, v⟩ := p
      refine pyEqFind_of_alookup (alookup_of_mem hnd hp) ?_
      refine ih v ?_ (hval (k, v) hp)
      have := List.sizeOf_lt_of_mem hp
      simp at hle this
      omega

end Json

namespace SyncTrans

open Json

theorem syncFields_akeys (en : List (String × Json)) (m : List (String × Json)) :
    akeys (syncFields en m).2 = akeys m := by
  induction en generalizing m with
  | nil => simp [syncFields]
  | cons p rest ih =>
    obtain ⟨k, v⟩ := p
    rw [syncFields]
    cases h : alookup k m with
    | none => exact ih m
    | some w =>
      by_cases hp : pyEq w v
      · simp [hp, ih m]
      · simp [hp, ih (aset k v m), akeys_aset]

theorem syncFields_alookup_of_not_mem (en : List (String × Json))
    (m : List (String × Json)) (k : String) (h : amem k en = false) :
    alookup k (syncFields en m).2 = alookup k m := by
  induction en generalizing m with
  | nil => simp [syncFields]
  | cons p rest ih =>
    obtain ⟨k₁, v₁⟩ := p
    rw [amem_cons] at h
    simp only [Bool.or_eq_false_iff, decide_eq_false_iff_not] at h
    obtain ⟨hne, hrest⟩ := h
    rw [syncFields]
    cases hl : alookup k₁ m with
    | none => exact ih m hrest
    | some w =>
      by_cases hp : pyEq w v₁
      · simp [hp, ih m hrest]
      · simp [hp, ih (aset k₁ v₁ m) hrest, alookup_aset_ne _ _ hne]

theorem syncFields_updates (en : List (String × Json)) (m : List (String × Json))
    (hen : keysNodup en = true) :
    (syncFields en m).1 = en.filterMap (updateOf m) := by
  induction en generalizing m with
  | nil => simp [syncFields]
  | cons p rest ih =>
    obtain ⟨k, v⟩ := p
    rw [keysNodup] at hen
    simp only [Bool.and_eq_true, Bool.not_eq_true'] at hen
    obtain ⟨hmem, hrest⟩ := hen
    rw [syncFields, List.filterMap_cons]
    cases hl : alookup k m with
    | none =>
      simp only [updateOf, hl]
      exact ih m hrest
    | some w =>
      by_cases hp : pyEq w v
      · simp only [updateOf, hl, hp, if_pos rfl]
        exact ih m hrest
      · simp only [updateOf, hl]
        simp only [hp, Bool.false_eq_true, if_false]
        rw [ih (aset k v m) hrest]
        have hcongr : ∀ q ∈ rest, updateOf (aset k v m) q = updateOf m q := by
          intro q hq
          have hqk : q.1 ≠ k := fst_ne_of_amem_false hmem hq
          simp [updateOf, alookup_aset_ne _ _ (fun hh : k = q.1 => hqk hh.symm)]
        rw [List.filterMap_congr hcongr]

theorem syncFields_alookup_shared (en : List (String × Json))
    (m : List (String × Json)) (k : String) (v w : Json)
    (hen : keysNodup en = true) (hv : alookup k en = some v)
    (hw : alookup k m = some w) :
    alookup k (syncFields en m).2 = some (if pyEq w v then w else v) := by
  induction en generalizing m with
  | nil => simp [alookup] at hv
  | cons p rest ih =>
    obtain ⟨k₁, v₁⟩ := p
    rw [keysNodup] at hen
    simp only [Bool.and_eq_true, Bool.not_eq_true'] at hen
    obtain ⟨hmem, hrest⟩ := hen
    rw [syncFields]
    by_cases hk : k₁ = k
    · subst hk
      rw [alookup, if_pos rfl] at hv
      injection hv with hv₁
      subst hv₁
      rw [hw]
      by_cases hp : pyEq w v₁
      · simp only [hp, if_true]
        rw [syncFields_alookup_of_not_mem rest m k₁ hmem, hw]
      · simp only [hp, Bool.false_eq_true, if_false]
        rw [syncFields_alookup_of_not_mem rest (aset k₁ v₁ m) k₁ hmem,
          alookup_aset_self v₁ (by rw [← alookup_isSome_eq_amem, hw]; rfl)]
    · rw [alookup, if_neg hk] at hv
      cases hl : alookup k₁ m with
      | none => exact ih m hrest hv hw
      | some w₁ =>
        by_cases hp : pyEq w₁ v₁
        · simp only [hp, if_true]
          exact ih m hrest hv hw
        · simp only [hp, Bool.false_eq_true, if_false]
          exact ih (aset k₁ v₁ m) hrest hv
            (by rw [alookup_aset_ne _ _ hk, hw])

theorem syncFields_mem_updates (en : List (String × Json))
    (m : List (String × Json)) (hen : keysNodup en = true)
    (k : String) (old nw : Json) :
    (⟨k, old, nw⟩ : UpdateRecord) ∈ (syncFields en m).1 ↔
      alookup k en = some nw ∧ alookup k m = some old ∧ pyEq old nw = false := by
  rw [syncFields_updates en m hen, List.mem_filterMap]
  constructor
  · rintro ⟨p, hp, hup⟩
    obtain ⟨k', v'⟩ := p
    rw [updateOf] at hup
    cases hl : alookup k' m with
    | none => simp [hl] at hup
    | some w =>
      rw [hl] at hup
      by_cases hpe : pyEq w v'
      · simp [hpe] at hup
      · simp only [hpe, Bool.false_eq_true, if_neg, not_false_eq_true,
          Option.some.injEq] at hup
        obtain ⟨rfl, rfl, rfl⟩ : k' = k ∧ w = old ∧ v' = nw := by
          constructor
          · exact congrArg UpdateRecord.field hup
          · exact ⟨congrArg UpdateRecord.old hup, congrArg UpdateRecord.new hup⟩
        exact ⟨alookup_of_mem hen hp, hl, by simp [hpe]⟩
  · rintro ⟨h1, h2, h3⟩
    refine ⟨(k, nw), mem_of_alookup h1, ?_⟩
    simp [updateOf, h2, h3]

theorem syncLoop_obj (en : List (String × Json)) (m : List (String × Json)) :
    syncLoop en (.obj m) = .ok ((syncFields en m).1, .obj (syncFields en m).2) := by
  induction en generalizing m with
  | nil => simp [syncLoop, syncFields]
  | cons p rest ih =>
    obtain ⟨k, v⟩ := p
    rw [syncLoop, syncFields]
    simp only [pyContains, Bind.bind, Except.bind]
    cases hmem : amem k m with
    | false =>
      have hl : alookup k m = none := alookup_eq_none_iff.mpr hmem
      simp [hmem, hl, ih m]
    | true =>
      have hl : (alookup k m).isSome = true := by rw [alookup_isSome_eq_amem, hmem]
      obtain ⟨w, hw⟩ := Option.isSome_iff_exists.mp hl
      rw [hw]
      by_cases hp : pyEq w v
      · simp [hmem, hw, hp, ih m]
      · simp [hmem, hw, hp, ih (aset k v m)]

theorem syncFields_nil_fields (en : List (String × Json)) :
    syncFields en [] = ([], []) := by
  induction en with
  | nil => rfl
  | cons p rest ih =>
    obtain ⟨k, v⟩ := p
    rw [syncFields]
    simp [alookup, ih]

theorem fsRead_fsWrite_self (fs : FS) (p : Path) (j : Json) :
    fsRead (fsWrite fs p j) p = some j := by
  induction fs with
  | nil => simp [fsWrite, fsRead]
  | cons q rest ih =>
    obtain ⟨p', j'⟩ := q
    by_cases h : p' = p <;> simp [fsWrite, fsRead, h, ih]

theorem fsRead_fsWrite_ne (fs : FS) (p q : Path) (j : Json) (h : p ≠ q) :
    fsRead (fsWrite fs p j) q = fsRead fs q := by
  induction fs with
  | nil => simp [fsWrite, fsRead, h]
  | cons e rest ih =>
    obtain ⟨p', j'⟩ := e
    by_cases h1 : p' = p
    · subst h1
      simp [fsWrite, fsRead, h, ih]
    · have h' : q ≠ p := fun hh => h hh.symm
      by_cases h2 : p' = q <;> simp [fsWrite, fsRead, h1, h2, h', ih]

theorem backupPath_ne (p : Path) : backupPath p ≠ p := by
  intro h
  have hs : p.stem ++ ".backup" = p.stem := congrArg Path.stem h
  have hl := congrArg String.length hs
  rw [String.length_append] at hl
  simp at hl
  exact absurd hl (by decide)

theorem truthy_obj_of_ne_nil {m : List (String × Json)} (h : m ≠ []) :
    Json.truthy (.obj m) = true := by
  simp [Json.truthy, h]

/-- A run that reaches the structural-error check with a missing or
falsy `en-us` entry returns `-1` and writes nothing (lines 34-36). -/
theorem sync_run_structural (fs : FS) (wp tp : Path) (wm fm : List (String × Json))
    (t : Json)
    (hwp : fsRead fs wp = some (.obj wm))
    (htp : fsRead fs tp = some t)
    (hft : (Json.alookup "formTranslations" wm).getD (.obj []) = .obj fm)
    (hen : Json.truthy ((Json.alookup "en-us" fm).getD (.obj [])) = false) :
    sync_translations fs wp tp = .ok ⟨fs, -1, []⟩ := by
  rw [sync_translations]
  simp only [hwp, htp, Bind.bind, Except.bind, asDict, hft, hen, Bool.not_false,
    if_true, Pure.pure, Except.pure]

/-- A well-shaped run whose sync loop records no update returns `0` and
writes nothing (lines 58, 82-87). -/
theorem sync_run_clean (fs : FS) (wp tp : Path)
    (wm fm en tm flds : List (String × Json))
    (hwp : fsRead fs wp = some (.obj wm))
    (htp : fsRead fs tp = some (.obj tm))
    (hft : (Json.alookup "formTranslations" wm).getD (.obj []) = .obj fm)
    (hen : (Json.alookup "en-us" fm).getD (.obj []) = .obj en)
    (hne : en ≠ [])
    (hfl : (Json.alookup "fields" tm).getD (.obj []) = .obj flds)
    (h0 : (syncFields en flds).1 = []) :
    sync_translations fs wp tp = .ok ⟨fs, 0, []⟩ := by
  rw [sync_translations]
  simp only [hwp, htp, Bind.bind, Except.bind, asDict, hft, hen,
    truthy_obj_of_ne_nil hne, Bool.not_true, Bool.false_eq_true, if_false,
    hfl, syncLoop_obj, h0, List.isEmpty_nil, if_true, Pure.pure, Except.pure]

/-- A well-shaped run whose sync loop records at least one update backs
up the pre-run target and overwrites the target's `fields` entry with
the synced mapping (lines 58-80). -/
theorem sync_run_updates (fs : FS) (wp tp : Path)
    (wm fm en tm flds : List (String × Json))
    (hwp : fsRead fs wp = some (.obj wm))
    (htp : fsRead fs tp = some (.obj tm))
    (hft : (Json.alookup "formTranslations" wm).getD (.obj []) = .obj fm)
    (hen : (Json.alookup "en-us" fm).getD (.obj []) = .obj en)
    (hne : en ≠ [])
    (hflmem : Json.alookup "fields" tm = some (.obj flds))
    (h1 : (syncFields en flds).1 ≠ []) :
    sync_translations fs wp tp =
      .ok ⟨fsWrite (fsWrite fs (backupPath tp) (.obj tm)) tp
            (.obj (Json.aset "fields" (.obj (syncFields en flds).2) tm)),
          ((syncFields en flds).1.length : Int), (syncFields en flds).1⟩ := by
  have hfl : (Json.alookup "fields" tm).getD (.obj []) = .obj flds := by
    rw [hflmem]; rfl
  have hamem : Json.amem "fields" tm = true := by
    rw [← alookup_isSome_eq_amem, hflmem]; rfl
  have hnoem : (syncFields en flds).1.isEmpty = false := by
    cases hu : (syncFields en flds).1 with
    | nil => exact absurd hu h1
    | cons a l => simp
  rw [sync_translations]
  simp only [hwp, htp, Bind.bind, Except.bind, asDict, hft, hen,
    truthy_obj_of_ne_nil hne, Bool.not_true, Bool.false_eq_true, if_false,
    hfl, syncLoop_obj, hamem, if_true, hnoem, Pure.pure, Except.pure]

end SyncTrans

namespace SyncTrans

open Json

theorem syncFields_alookup_none (en : List (String × Json))
    (m : List (String × Json)) (k : String) (h : alookup k m = none) :
    alookup k (syncFields en m).2 = none := by
  cases hres : amem k (syncFields en m).2 with
  | false => exact alookup_eq_none_iff.mpr hres
  | true =>
    have hk : k ∈ akeys (syncFields en m).2 := amem_iff_mem_akeys.mp hres
    rw [syncFields_akeys] at hk
    have hm : amem k m = true := amem_iff_mem_akeys.mpr hk
    rw [alookup_eq_none_iff, hm] at h
    cases h

theorem syncFields_empty_shared (en flds : List (String × Json))
    (hen : keysNodup en = true) (h0 : (syncFields en flds).1 = [])
    (k : String) (v w : Json)
    (hv : alookup k en = some v) (hw : alookup k flds = some w) :
    pyEq w v = true := by
  rw [syncFields_updates en flds hen, List.filterMap_eq_nil_iff] at h0
  have hup := h0 (k, v) (mem_of_alookup hv)
  rw [updateOf, hw] at hup
  by_cases hp : pyEq w v
  · exact hp
  · simp [hp] at hup

theorem syncFields_idem (en flds : List (String × Json))
    (hnd : keysNodup en = true)
    (hwfen : ∀ p ∈ en, Json.wf p.2 = true) :
    (syncFields en (syncFields en flds).2).1 = [] := by
  rw [syncFields_updates _ _ hnd, List.filterMap_eq_nil_iff]
  intro p hp
  obtain ⟨k, v⟩ := p
  have hv : alookup k en = some v := alookup_of_mem hnd hp
  rw [updateOf]
  cases hw : alookup k flds with
  | none => rw [syncFields_alookup_none en flds k hw]
  | some w =>
    rw [syncFields_alookup_shared en flds k v w hnd hv hw]
    by_cases hp2 : pyEq w v
    · simp [hp2]
    · simp [hp2, pyEq_refl v (hwfen (k, v) hp)]

theorem sync_ok_reads (fs : FS) (wp tp : Path) (r : RunOut)
    (h : sync_translations fs wp tp = .ok r) :
    (fsRead fs wp).isSome = true ∧ (fsRead fs tp).isSome = true := by
  cases hw : fsRead fs wp with
  | none =>
    rw [sync_translations] at h
    simp [hw, Bind.bind, Except.bind] at h
  | some w =>
    cases ht : fsRead fs tp with
    | none =>
      rw [sync_translations] at h
      simp [hw, ht, Bind.bind, Except.bind] at h
    | some t => exact ⟨rfl, rfl⟩

end SyncTrans

namespace SyncTrans

open Json

/-- C1: for every field key, the sync engine overwrites the target's
`fields[key]` if and only if that key exists both in the authoritative
en-us mapping and in the target's `fields` mapping and their current
values differ (differing in the sense of the code's `!=` comparison);
keys present only in the target are never altered or removed, and keys
present only in the authoritative mapping are never created. -/
theorem C1_update_scope (en m : List (String × Json)) (k : String)
    (hen : Json.keysNodup en = true) :
    (Json.amem k en = false →
       Json.alookup k (syncFields en m).2 = Json.alookup k m) ∧
    (Json.amem k m = false →
       Json.alookup k (syncFields en m).2 = none) ∧
    (∀ v w, Json.alookup k en = some v → Json.alookup k m = some w →
       Json.alookup k (syncFields en m).2 =
         some (if Json.pyEq w v then w else v)) := by
  refine ⟨fun h => syncFields_alookup_of_not_mem en m k h, fun h => ?_,
    fun v w hv hw => syncFields_alookup_shared en m k v w hen hv hw⟩
  exact syncFields_alookup_none en m k (alookup_eq_none_iff.mpr h)

/-- Witness for C1 on the worked example: the target-only key `phone`
is untouched, an absent key is not created, and the shared key `name`
is overwritten with the authoritative label. -/
theorem C1_update_scope_witness :
    Json.keysNodup exEn = true ∧
    Json.alookup "phone" (syncFields exEn exFlds).2 = Json.alookup "phone" exFlds ∧
    Json.alookup "missing" (syncFields exEn exFlds).2 = none ∧
    Json.alookup "name" (syncFields exEn exFlds).2 = some (Json.str "Full Name") := by
  refine ⟨by decide, (C1_update_scope exEn exFlds "phone" (by decide)).1 (by decide),
    (C1_update_scope exEn exFlds "missing" (by decide)).2.1 (by decide), ?_⟩
  have h := (C1_update_scope exEn exFlds "name" (by decide)).2.2
    (Json.str "Full Name") (Json.str "Full Nm") (by rfl) (by rfl)
  simpa [Json.pyEq] using h

/-- C5 as stated is false: the engine compares with Python `==`, which
is not exact equality including type. With authoritative value `1` and
target value `true`, the two values are not equal (`Json.bool true ≠
Json.num 1`) yet no update is recorded, because Python's `True == 1`. -/
theorem C5_counterexample :
    (syncFields [("k", Json.num 1)] [("k", Json.bool true)]).1 = [] ∧
    Json.bool true ≠ Json.num 1 := by
  constructor
  · rw [syncFields]
    simp [Json.alookup, Json.pyEq, syncFields]
  · intro h
    exact Json.noConfusion h

/-- C5 (amended): an update is recorded exactly when the current target
value and the authoritative value are not equal under the host
language's `==`; that comparison does distinguish a null target value
from an empty string (in both orders), but it identifies the boolean
`true` with the number `1`. -/
theorem C5_equality_semantics (en m : List (String × Json))
    (hen : Json.keysNodup en = true) :
    (∀ k old nw, (⟨k, old, nw⟩ : UpdateRecord) ∈ (syncFields en m).1 ↔
       Json.alookup k en = some nw ∧ Json.alookup k m = some old ∧
         Json.pyEq old nw = false) ∧
    Json.pyEq .null (.str "") = false ∧
    Json.pyEq (.str "") .null = false ∧
    Json.pyEq (.bool true) (.num 1) = true := by
  refine ⟨fun k old nw => syncFields_mem_updates en m hen k old nw, ?_, ?_, ?_⟩
  · simp [Json.pyEq]
  · simp [Json.pyEq]
  · simp [Json.pyEq]

/-- Witness for C5 (amended) on the worked example: exactly the `name`
field is recorded, with its old and new labels. -/
theorem C5_equality_semantics_witness :
    Json.keysNodup exEn = true ∧
    ((⟨"name", Json.str "Full Nm", Json.str "Full Name"⟩ : UpdateRecord) ∈
       (syncFields exEn exFlds).1 ↔
       Json.alookup "name" exEn = some (Json.str "Full Name") ∧
         Json.alookup "name" exFlds = some (Json.str "Full Nm") ∧
         Json.pyEq (Json.str "Full Nm") (Json.str "Full Name") = false) := by
  exact ⟨by decide, (C5_equality_semantics exEn exFlds (by decide)).1 "name"
    (Json.str "Full Nm") (Json.str "Full Name")⟩

/-- C3: with no `en-us` entry in `formTranslations` (or an empty one),
`sync_translations` returns `-1` — a sentinel distinct from "found zero
differences" — performs no write, and `main` exits with status 1. -/
theorem C3_structural_error (fs : FS) (wp tp : Path)
    (wm fm : List (String × Json)) (t : Json)
    (hwp : fsRead fs wp = some (.obj wm))
    (htp : fsRead fs tp = some t)
    (hft : (Json.alookup "formTranslations" wm).getD (.obj []) = .obj fm)
    (hen : Json.alookup "en-us" fm = none ∨
           Json.alookup "en-us" fm = some (.obj [])) :
    sync_translations fs wp tp = .ok ⟨fs, -1, []⟩ ∧ (-1 : Int) < 0 ∧
      main [wp, tp] fs = ⟨1, fs, []⟩ := by
  have htr : Json.truthy ((Json.alookup "en-us" fm).getD (.obj [])) = false := by
    rcases hen with h | h <;> simp [h, Json.truthy]
  have hs := sync_run_structural fs wp tp wm fm t hwp htp hft htr
  refine ⟨hs, by norm_num, ?_⟩
  rw [main]
  simp [hwp, htp, hs]

/-- Witness for C3: a template whose `formTranslations` is empty. -/
theorem C3_structural_error_witness :
    sync_translations exFSNoEn exWP exTP = .ok ⟨exFSNoEn, -1, []⟩ ∧ (-1 : Int) < 0 ∧
      main [exWP, exTP] exFSNoEn = ⟨1, exFSNoEn, []⟩ :=
  C3_structural_error exFSNoEn exWP exTP [("formTranslations", .obj [])] [] exTarget
    (by rfl) (by rfl) (by rfl) (Or.inl (by rfl))

/-- C10: a target document with no `fields` key is not an error: every
authoritative key is skipped, `sync_translations` returns zero with an
empty update list, nothing is written, and the process exits with 0. -/
theorem C10_no_fields (fs : FS) (wp tp : Path)
    (wm fm en tm : List (String × Json))
    (hwp : fsRead fs wp = some (.obj wm))
    (htp : fsRead fs tp = some (.obj tm))
    (hft : (Json.alookup "formTranslations" wm).getD (.obj []) = .obj fm)
    (hen : (Json.alookup "en-us" fm).getD (.obj []) = .obj en)
    (hne : en ≠ [])
    (hnofl : Json.alookup "fields" tm = none) :
    sync_translations fs wp tp = .ok ⟨fs, 0, []⟩ ∧
      main [wp, tp] fs = ⟨0, fs, []⟩ := by
  have hfl : (Json.alookup "fields" tm).getD (.obj []) = .obj [] := by
    rw [hnofl]
    rfl
  have hs := sync_run_clean fs wp tp wm fm en tm [] hwp htp hft hen hne hfl
    (by rw [syncFields_nil_fields])
  refine ⟨hs, ?_⟩
  rw [main]
  simp [hwp, htp, hs]

/-- Witness for C10: the example template against a target that has
only a `requestTypes` section. -/
theorem C10_no_fields_witness :
    sync_translations exFSNoFields exWP exTP = .ok ⟨exFSNoFields, 0, []⟩ ∧
      main [exWP, exTP] exFSNoFields = ⟨0, exFSNoFields, []⟩ :=
  C10_no_fields exFSNoFields exWP exTP
    [("formTranslations", .obj [("en-us", .obj exEn)])] [("en-us", .obj exEn)]
    exEn [("requestTypes", .obj [("rt", .str "Request")])]
    (by rfl) (by rfl) (by rfl) (by rfl) (by simp [exEn]) (by rfl)

end SyncTrans

namespace SyncTrans

open Json

theorem fields_present_of_ne_nil {tm flds : List (String × Json)}
    (hfl : (Json.alookup "fields" tm).getD (.obj []) = .obj flds)
    (hne : flds ≠ []) : Json.alookup "fields" tm = some (.obj flds) := by
  cases hx : Json.alookup "fields" tm with
  | none =>
    rw [hx] at hfl
    simp only [Option.getD_none] at hfl
    injection hfl with h
    exact absurd h.symm hne
  | some j =>
    rw [hx] at hfl
    simp only [Option.getD_some] at hfl
    exact congrArg some hfl

/-- C6: when a well-shaped run finds zero updates, no filesystem write
occurs at all — the resulting filesystem is the input filesystem, so in
particular no backup file is created and the target is unchanged. -/
theorem C6_noop_no_write (fs : FS) (wp tp : Path)
    (wm fm en tm flds : List (String × Json))
    (hwp : fsRead fs wp = some (.obj wm))
    (htp : fsRead fs tp = some (.obj tm))
    (hft : (Json.alookup "formTranslations" wm).getD (.obj []) = .obj fm)
    (hen : (Json.alookup "en-us" fm).getD (.obj []) = .obj en)
    (hne : en ≠ [])
    (hfl : (Json.alookup "fields" tm).getD (.obj []) = .obj flds)
    (r : RunOut) (hr : sync_translations fs wp tp = .ok r) (h0 : r.ret = 0) :
    r.fs = fs := by
  by_cases hc : (syncFields en flds).1 = []
  · rw [sync_run_clean fs wp tp wm fm en tm flds hwp htp hft hen hne hfl hc] at hr
    injection hr with hr'
    rw [← hr']
  · have hfne : flds ≠ [] := by
      intro hf
      subst hf
      rw [syncFields_nil_fields] at hc
      exact hc rfl
    have hflmem := fields_present_of_ne_nil hfl hfne
    rw [sync_run_updates fs wp tp wm fm en tm flds hwp htp hft hen hne hflmem hc] at hr
    injection hr with hr'
    rw [← hr'] at h0
    simp only [Int.natCast_eq_zero] at h0
    exact absurd (List.length_eq_zero.mp h0) hc

/-- Witness for C6: the already-synced fixture target; the run returns
zero updates and its filesystem is the input filesystem. -/
theorem C6_noop_no_write_witness :
    (⟨exFSSynced, 0, []⟩ : RunOut).fs = exFSSynced := by
  refine C6_noop_no_write exFSSynced exWP exTP
    [("formTranslations", .obj [("en-us", .obj exEn)])] [("en-us", .obj exEn)]
    exEn [("fields", .obj [("name", .str "Full Name"), ("email", .str "Email Address"),
      ("phone", .str "Phone")]), ("options", .obj [("size", .str "Size")])]
    [("name", .str "Full Name"), ("email", .str "Email Address"),
      ("phone", .str "Phone")]
    (by rfl) (by rfl) (by rfl) (by rfl) (by simp [exEn]) (by rfl)
    ⟨exFSSynced, 0, []⟩ ?_ (by rfl)
  exact sync_run_clean exFSSynced exWP exTP _ _ exEn _ _
    (by rfl) (by rfl) (by rfl) (by rfl) (by simp [exEn]) (by rfl)
    (by simp [syncFields, exEn, Json.alookup, Json.pyEq])

/-- C4: when the update count is positive, the backup is written at the
path obtained by inserting `.backup` before the final extension in the
same directory, and its content is the target file's pre-run state as
re-read from disk before the target is overwritten. -/
theorem C4_backup_fidelity (fs : FS) (wp tp : Path)
    (wm fm en tm flds : List (String × Json))
    (hwp : fsRead fs wp = some (.obj wm))
    (htp : fsRead fs tp = some (.obj tm))
    (hft : (Json.alookup "formTranslations" wm).getD (.obj []) = .obj fm)
    (hen : (Json.alookup "en-us" fm).getD (.obj []) = .obj en)
    (hne : en ≠ [])
    (hfl : (Json.alookup "fields" tm).getD (.obj []) = .obj flds)
    (r : RunOut) (hr : sync_translations fs wp tp = .ok r) (hpos : 0 < r.ret) :
    fsRead r.fs (backupPath tp) = fsRead fs tp ∧
      backupPath tp = ⟨tp.parent, tp.stem ++ ".backup", tp.suffix⟩ := by
  by_cases hc : (syncFields en flds).1 = []
  · rw [sync_run_clean fs wp tp wm fm en tm flds hwp htp hft hen hne hfl hc] at hr
    injection hr with hr'
    rw [← hr'] at hpos
    simp at hpos
  · have hfne : flds ≠ [] := by
      intro hf
      subst hf
      rw [syncFields_nil_fields] at hc
      exact hc rfl
    have hflmem := fields_present_of_ne_nil hfl hfne
    rw [sync_run_updates fs wp tp wm fm en tm flds hwp htp hft hen hne hflmem hc] at hr
    injection hr with hr'
    rw [← hr']
    refine ⟨?_, rfl⟩
    rw [fsRead_fsWrite_ne _ tp (backupPath tp) _ (Ne.symm (backupPath_ne tp)),
      fsRead_fsWrite_self, htp]

/-- Witness for C4 on the example run with one update: the backup holds
the pre-run target and sits at `field_translations.backup.json`. -/
theorem C4_backup_fidelity_witness :
    fsRead exRun1.fs (backupPath exTP) = fsRead exFS exTP ∧
      backupPath exTP = ⟨exTP.parent, exTP.stem ++ ".backup", exTP.suffix⟩ := by
  refine C4_backup_fidelity exFS exWP exTP
    [("formTranslations", .obj [("en-us", .obj exEn)])] [("en-us", .obj exEn)]
    exEn [("fields", .obj exFlds), ("options", .obj [("size", .str "Size")])] exFlds
    (by rfl) (by rfl) (by rfl) (by rfl) (by simp [exEn]) (by rfl)
    exRun1 ?_ (by decide)
  rw [sync_run_updates exFS exWP exTP _ _ exEn _ exFlds
    (by rfl) (by rfl) (by rfl) (by rfl) (by simp [exEn]) (by rfl)
    (by simp [syncFields, exEn, exFlds, Json.alookup, Json.aset, Json.pyEq])]
  simp [syncFields, exEn, exFlds, Json.alookup, Json.aset, Json.pyEq,
    exRun1, exFS1, exFS, exBP, exWP, exTP, backupPath, fsWrite,
    exWebform, exTarget, exTargetSynced]

end SyncTrans

namespace SyncTrans

open Json

/-- C7: every top-level section of the target other than `fields` is
preserved by a well-shaped run, with updates or without: the written
document has the same top-level keys, and every key other than `fields`
keeps its value. -/
theorem C7_frame_preservation (fs : FS) (wp tp : Path)
    (wm fm en tm flds : List (String × Json))
    (hwp : fsRead fs wp = some (.obj wm))
    (htp : fsRead fs tp = some (.obj tm))
    (hft : (Json.alookup "formTranslations" wm).getD (.obj []) = .obj fm)
    (hen : (Json.alookup "en-us" fm).getD (.obj []) = .obj en)
    (hne : en ≠ [])
    (hfl : (Json.alookup "fields" tm).getD (.obj []) = .obj flds)
    (r : RunOut) (hr : sync_translations fs wp tp = .ok r) :
    ∃ tm', fsRead r.fs tp = some (.obj tm') ∧
      Json.akeys tm' = Json.akeys tm ∧
      ∀ key, key ≠ "fields" → Json.alookup key tm' = Json.alookup key tm := by
  by_cases hc : (syncFields en flds).1 = []
  · rw [sync_run_clean fs wp tp wm fm en tm flds hwp htp hft hen hne hfl hc] at hr
    injection hr with hr'
    rw [← hr']
    exact ⟨tm, htp, rfl, fun _ _ => rfl⟩
  · have hfne : flds ≠ [] := by
      intro hf
      subst hf
      rw [syncFields_nil_fields] at hc
      exact hc rfl
    have hflmem := fields_present_of_ne_nil hfl hfne
    rw [sync_run_updates fs wp tp wm fm en tm flds hwp htp hft hen hne hflmem hc] at hr
    injection hr with hr'
    rw [← hr']
    refine ⟨aset "fields" (.obj (syncFields en flds).2) tm,
      fsRead_fsWrite_self .., akeys_aset .., fun key hkey => ?_⟩
    exact alookup_aset_ne _ _ (fun hh => hkey hh.symm)

/-- Witness for C7 on the example run with one update: the `options`
section survives the write. -/
theorem C7_frame_preservation_witness :
    ∃ tm', fsRead exRun1.fs exTP = some (.obj tm') ∧
      Json.akeys tm' = Json.akeys [("fields", .obj exFlds),
        ("options", .obj [("size", .str "Size")])] ∧
      ∀ key, key ≠ "fields" →
        Json.alookup key tm' = Json.alookup key [("fields", .obj exFlds),
          ("options", .obj [("size", .str "Size")])] := by
  refine C7_frame_preservation exFS exWP exTP
    [("formTranslations", .obj [("en-us", .obj exEn)])] [("en-us", .obj exEn)]
    exEn [("fields", .obj exFlds), ("options", .obj [("size", .str "Size")])] exFlds
    (by rfl) (by rfl) (by rfl) (by rfl) (by simp [exEn]) (by rfl)
    exRun1 ?_
  rw [sync_run_updates exFS exWP exTP _ _ exEn _ exFlds
    (by rfl) (by rfl) (by rfl) (by rfl) (by simp [exEn]) (by rfl)
    (by simp [syncFields, exEn, exFlds, Json.alookup, Json.aset, Json.pyEq])]
  simp [syncFields, exEn, exFlds, Json.alookup, Json.aset, Json.pyEq,
    exRun1, exFS1, exFS, exBP, exWP, exTP, backupPath, fsWrite,
    exWebform, exTarget, exTargetSynced]

/-- C2: after a well-shaped run completes, for every field key present
both in the authoritative en-us mapping and in the target's `fields`
mapping, the value stored in the target file equals the authoritative
value, regardless of the prior target value — equality being the `==`
the spec states the post-condition with. -/
theorem C2_overwrite_direction (fs : FS) (wp tp : Path)
    (wm fm en tm flds : List (String × Json))
    (hwp : fsRead fs wp = some (.obj wm))
    (htp : fsRead fs tp = some (.obj tm))
    (hft : (Json.alookup "formTranslations" wm).getD (.obj []) = .obj fm)
    (hen : (Json.alookup "en-us" fm).getD (.obj []) = .obj en)
    (hne : en ≠ [])
    (hflmem : Json.alookup "fields" tm = some (.obj flds))
    (hnd : Json.keysNodup en = true)
    (hwfen : ∀ p ∈ en, Json.wf p.2 = true)
    (r : RunOut) (hr : sync_translations fs wp tp = .ok r) :
    ∃ tm' flds', fsRead r.fs tp = some (.obj tm') ∧
      Json.alookup "fields" tm' = some (.obj flds') ∧
      ∀ k v w, Json.alookup k en = some v → Json.alookup k flds = some w →
        ∃ w', Json.alookup k flds' = some w' ∧ Json.pyEq w' v = true := by
  have hfl : (Json.alookup "fields" tm).getD (.obj []) = .obj flds := by
    rw [hflmem]
    rfl
  have hamem : Json.amem "fields" tm = true := by
    rw [← alookup_isSome_eq_amem, hflmem]
    rfl
  by_cases hc : (syncFields en flds).1 = []
  · rw [sync_run_clean fs wp tp wm fm en tm flds hwp htp hft hen hne hfl hc] at hr
    injection hr with hr'
    rw [← hr']
    refine ⟨tm, flds, htp, hflmem, fun k v w hv hw => ⟨w, hw, ?_⟩⟩
    exact syncFields_empty_shared en flds hnd hc k v w hv hw
  · have hfne : flds ≠ [] := by
      intro hf
      subst hf
      rw [syncFields_nil_fields] at hc
      exact hc rfl
    have hflmem' := fields_present_of_ne_nil hfl hfne
    rw [sync_run_updates fs wp tp wm fm en tm flds hwp htp hft hen hne hflmem' hc] at hr
    injection hr with hr'
    rw [← hr']
    refine ⟨aset "fields" (.obj (syncFields en flds).2) tm, (syncFields en flds).2,
      fsRead_fsWrite_self .., alookup_aset_self _ hamem, fun k v w hv hw => ?_⟩
    rw [syncFields_alookup_shared en flds k v w hnd hv hw]
    by_cases hp : Json.pyEq w v
    · exact ⟨w, by rw [if_pos hp], hp⟩
    · refine ⟨v, by simp [hp], ?_⟩
      exact pyEq_refl v (hwfen (k, v) (mem_of_alookup hv))

/-- Witness for C2 on the example run: both shared keys end up equal to
the authoritative labels. -/
theorem C2_overwrite_direction_witness :
    ∃ tm' flds', fsRead exRun1.fs exTP = some (.obj tm') ∧
      Json.alookup "fields" tm' = some (.obj flds') ∧
      ∀ k v w, Json.alookup k exEn = some v → Json.alookup k exFlds = some w →
        ∃ w', Json.alookup k flds' = some w' ∧ Json.pyEq w' v = true := by
  refine C2_overwrite_direction exFS exWP exTP
    [("formTranslations", .obj [("en-us", .obj exEn)])] [("en-us", .obj exEn)]
    exEn [("fields", .obj exFlds), ("options", .obj [("size", .str "Size")])] exFlds
    (by rfl) (by rfl) (by rfl) (by rfl) (by simp [exEn]) (by rfl) (by decide)
    ?_ exRun1 ?_
  · intro p hp
    simp only [exEn, List.mem_cons, List.not_mem_nil, or_false] at hp
    rcases hp with rfl | rfl <;> simp [Json.wf]
  · rw [sync_run_updates exFS exWP exTP _ _ exEn _ exFlds
      (by rfl) (by rfl) (by rfl) (by rfl) (by simp [exEn]) (by rfl)
      (by simp [syncFields, exEn, exFlds, Json.alookup, Json.aset, Json.pyEq])]
    simp [syncFields, exEn, exFlds, Json.alookup, Json.aset, Json.pyEq,
      exRun1, exFS1, exFS, exBP, exWP, exTP, backupPath, fsWrite,
      exWebform, exTarget, exTargetSynced]

end SyncTrans

namespace SyncTrans

open Json

/-- C9: the CLI exit-code contract. An argument count other than two
prints the usage text and exits 1; a missing input path prints an error
naming that path and exits 1; a run whose sync returns a non-negative
count exits 0; a run whose sync raises exits 1. -/
theorem C9_exit_codes :
    (∀ (argv : List Path) (fs : FS), argv.length ≠ 2 →
       main argv fs = ⟨1, fs, [usageText, "\nExample:",
         "  python sync_translations.py webform-template-123.json field_translations.json"]⟩) ∧
    (∀ (wp tp : Path) (fs : FS), fsRead fs wp = none →
       main [wp, tp] fs = ⟨1, fs, ["Error: Webform template not found: " ++ wp.render]⟩) ∧
    (∀ (wp tp : Path) (fs : FS) (w : Json), fsRead fs wp = some w →
       fsRead fs tp = none →
       main [wp, tp] fs = ⟨1, fs, ["Error: Translations file not found: " ++ tp.render]⟩) ∧
    (∀ (wp tp : Path) (fs : FS) (r : RunOut),
       sync_translations fs wp tp = .ok r → 0 ≤ r.ret →
       (main [wp, tp] fs).exit = 0) ∧
    (∀ (wp tp : Path) (fs : FS) (e : SyncErr),
       sync_translations fs wp tp = .error e → (main [wp, tp] fs).exit = 1) := by
  refine ⟨?_, ?_, ?_, ?_, ?_⟩
  · intro argv fs h
    cases argv with
    | nil => rfl
    | cons a t =>
      cases t with
      | nil => rfl
      | cons b t2 =>
        cases t2 with
        | nil => simp at h
        | cons c t3 => rfl
  · intro wp tp fs h
    simp [main, h]
  · intro wp tp fs w hw ht
    simp [main, hw, ht]
  · intro wp tp fs r hs hret
    obtain ⟨h1, h2⟩ := sync_ok_reads fs wp tp r hs
    obtain ⟨w, hw⟩ := Option.isSome_iff_exists.mp h1
    obtain ⟨t, ht⟩ := Option.isSome_iff_exists.mp h2
    simp [main, hw, ht, hs, hret]
  · intro wp tp fs e hs
    cases hw : fsRead fs wp with
    | none => simp [main, hw]
    | some w =>
      cases ht : fsRead fs tp with
      | none => simp [main, hw, ht]
      | some t => simp [main, hw, ht, hs]

/-- Witness for C9: each branch of the contract exercised on concrete
inputs — no arguments, a missing template, a missing target, the
example run (exit 0), and a template that is not a JSON object (the
sync raises, exit 1). -/
theorem C9_exit_codes_witness :
    main [] ([] : FS) = ⟨1, [], [usageText, "\nExample:",
      "  python sync_translations.py webform-template-123.json field_translations.json"]⟩ ∧
    main [exWP, exTP] ([] : FS) =
      ⟨1, [], ["Error: Webform template not found: " ++ exWP.render]⟩ ∧
    main [exWP, exTP] [(exWP, exWebform)] =
      ⟨1, [(exWP, exWebform)], ["Error: Translations file not found: " ++ exTP.render]⟩ ∧
    (main [exWP, exTP] exFS).exit = 0 ∧
    (main [exWP, exTP] [(exWP, .null), (exTP, exTarget)]).exit = 1 := by
  refine ⟨C9_exit_codes.1 [] [] (by decide),
    C9_exit_codes.2.1 exWP exTP [] (by rfl),
    C9_exit_codes.2.2.1 exWP exTP [(exWP, exWebform)] exWebform (by rfl) (by rfl),
    C9_exit_codes.2.2.2.1 exWP exTP exFS exRun1 ?_ (by decide),
    C9_exit_codes.2.2.2.2 exWP exTP [(exWP, .null), (exTP, exTarget)]
      SyncErr.typeErr ?_⟩
  · rw [sync_run_updates exFS exWP exTP _ _ exEn _ exFlds
      (by rfl) (by rfl) (by rfl) (by rfl) (by simp [exEn]) (by rfl)
      (by simp [syncFields, exEn, exFlds, Json.alookup, Json.aset, Json.pyEq])]
    simp [syncFields, exEn, exFlds, Json.alookup, Json.aset, Json.pyEq,
      exRun1, exFS1, exFS, exBP, exWP, exTP, backupPath, fsWrite,
      exWebform, exTarget, exTargetSynced]
  · simp [sync_translations, fsRead, asDict, exWP, exTP,
      Bind.bind, Except.bind]

end SyncTrans

namespace SyncTrans

open Json

/-- C8 (amended): provided the template path is not the backup path
derived from the target path, a second run on the files a completed
well-shaped run leaves behind finds zero updates and changes nothing:
it returns exactly the first run's filesystem with count `0` and an
empty update list. (The proviso is forced: when the template lives at
the backup path, the first run's backup write clobbers the template.) -/
theorem C8_idempotence (fs : FS) (wp tp : Path)
    (wm fm en tm flds : List (String × Json))
    (hwp : fsRead fs wp = some (.obj wm))
    (htp : fsRead fs tp = some (.obj tm))
    (hft : (Json.alookup "formTranslations" wm).getD (.obj []) = .obj fm)
    (hen : (Json.alookup "en-us" fm).getD (.obj []) = .obj en)
    (hne : en ≠ [])
    (hfl : (Json.alookup "fields" tm).getD (.obj []) = .obj flds)
    (hnd : Json.keysNodup en = true)
    (hwfen : ∀ p ∈ en, Json.wf p.2 = true)
    (hbp : wp ≠ backupPath tp)
    (r₁ : RunOut) (h₁ : sync_translations fs wp tp = .ok r₁) :
    sync_translations r₁.fs wp tp = .ok ⟨r₁.fs, 0, []⟩ := by
  by_cases hc : (syncFields en flds).1 = []
  · rw [sync_run_clean fs wp tp wm fm en tm flds hwp htp hft hen hne hfl hc] at h₁
    injection h₁ with h₁'
    rw [← h₁']
    exact sync_run_clean fs wp tp wm fm en tm flds hwp htp hft hen hne hfl hc
  · have hfne : flds ≠ [] := by
      intro hf
      subst hf
      rw [syncFields_nil_fields] at hc
      exact hc rfl
    have hflmem := fields_present_of_ne_nil hfl hfne
    have hamem : Json.amem "fields" tm = true := by
      rw [← alookup_isSome_eq_amem, hflmem]
      rfl
    rw [sync_run_updates fs wp tp wm fm en tm flds hwp htp hft hen hne hflmem hc] at h₁
    injection h₁ with h₁'
    rw [← h₁']
    have htp₂ : fsRead (fsWrite (fsWrite fs (backupPath tp) (.obj tm)) tp
        (.obj (aset "fields" (.obj (syncFields en flds).2) tm))) tp =
        some (.obj (aset "fields" (.obj (syncFields en flds).2) tm)) :=
      fsRead_fsWrite_self ..
    have hfl₂ : (Json.alookup "fields"
        (aset "fields" (.obj (syncFields en flds).2) tm)).getD (.obj []) =
        .obj (syncFields en flds).2 := by
      rw [alookup_aset_self _ hamem]
      rfl
    have hidem : (syncFields en (syncFields en flds).2).1 = [] :=
      syncFields_idem en flds hnd hwfen
    by_cases hwt : wp = tp
    · subst hwt
      rw [hwp] at htp
      injection htp with htm
      injection htm with htm'
      subst htm'
      have hft₂ : (Json.alookup "formTranslations"
          (aset "fields" (.obj (syncFields en flds).2) wm)).getD (.obj []) =
          .obj fm := by
        rw [alookup_aset_ne _ _ (by decide)]
        exact hft
      exact sync_run_clean _ wp wp _ fm en _ (syncFields en flds).2
        htp₂ htp₂ hft₂ hen hne hfl₂ hidem
    · have hwp₂ : fsRead (fsWrite (fsWrite fs (backupPath tp) (.obj tm)) tp
          (.obj (aset "fields" (.obj (syncFields en flds).2) tm))) wp =
          some (.obj wm) := by
        rw [fsRead_fsWrite_ne _ tp wp _ (fun hh => hwt hh.symm),
          fsRead_fsWrite_ne _ (backupPath tp) wp _ (fun hh => hbp hh.symm), hwp]
      exact sync_run_clean _ wp tp wm fm en _ (syncFields en flds).2
        hwp₂ htp₂ hft hen hne hfl₂ hidem

/-- Witness for C8 on the example fixtures (template path distinct from
the backup path): re-running after the example run yields zero updates
and the same filesystem. -/
theorem C8_idempotence_witness :
    sync_translations exRun1.fs exWP exTP = .ok ⟨exRun1.fs, 0, []⟩ := by
  refine C8_idempotence exFS exWP exTP
    [("formTranslations", .obj [("en-us", .obj exEn)])] [("en-us", .obj exEn)]
    exEn [("fields", .obj exFlds), ("options", .obj [("size", .str "Size")])] exFlds
    (by rfl) (by rfl) (by rfl) (by rfl) (by simp [exEn]) (by rfl) (by decide)
    ?_ (by decide) exRun1 ?_
  · intro p hp
    simp only [exEn, List.mem_cons, List.not_mem_nil, or_false] at hp
    rcases hp with rfl | rfl <;> simp [Json.wf]
  · rw [sync_run_updates exFS exWP exTP _ _ exEn _ exFlds
      (by rfl) (by rfl) (by rfl) (by rfl) (by simp [exEn]) (by rfl)
      (by simp [syncFields, exEn, exFlds, Json.alookup, Json.aset, Json.pyEq])]
    simp [syncFields, exEn, exFlds, Json.alookup, Json.aset, Json.pyEq,
      exRun1, exFS1, exFS, exBP, exWP, exTP, backupPath, fsWrite,
      exWebform, exTarget, exTargetSynced]

/-- C8 as stated is false: when the webform template is given at
exactly the backup path derived from the target path, the first run's
backup write overwrites the template, and the second run on the same
inputs performs one further update instead of zero. -/
theorem C8_counterexample :
    sync_translations cexFS cexWP cexTP =
      .ok ⟨cexFS1, 1, [⟨"k", .str "B", .str "A"⟩]⟩ ∧
    (sync_translations cexFS1 cexWP cexTP).map RunOut.ret = .ok 1 := by
  constructor
  · simp [sync_translations, cexFS, cexFS1, cexWP, cexTP, cexWebform, cexTarget,
      fsRead, fsWrite, asDict, syncLoop, pyContains, backupPath,
      Json.alookup, Json.aset, Json.amem, Json.truthy, Json.pyEq,
      Bind.bind, Except.bind, Pure.pure, Except.pure]
  · simp [sync_translations, cexFS1, cexWP, cexTP, cexTarget,
      fsRead, fsWrite, asDict, syncLoop, pyContains, backupPath,
      Json.alookup, Json.aset, Json.amem, Json.truthy, Json.pyEq,
      Bind.bind, Except.bind, Pure.pure, Except.pure, Except.map]

end SyncTrans
